import Mathlib

/-!
Verification development for the employee-directory program (`app.py`).

The program manages a SQLite table `employees(id, full_name, birth_date, gender)`.
This file gives a shallow embedding of its data model and operations:

* rows are `Employee` records of three strings, exactly the tuple bound in the
  `INSERT INTO employees (full_name, birth_date, gender)` statements;
* the SQLite connection state is a `Db`: the committed table contents plus the
  rows written by the cursor inside the currently open (not yet committed)
  transaction, plus the presence flag of the secondary index
  `idx_gender_name ON employees(gender, full_name)`;
* `cursor.executemany`, `conn.commit`, the implicit rollback performed by
  `conn.close()` on an open transaction, and the batched loader of
  `generate_random_employees` are explicit state-passing functions;
* environmental failures of the storage layer (an `sqlite3` error raised part
  way through an `executemany`) are injected as explicit parameters: a failure
  specification says after how many rows the statement raises and with which
  message, and `none` means the call succeeds;
* the two `time.time()` readings taken around a query are injected as rational
  parameters `t0 t1`; `time.time()` is the wall clock of day, so nothing
  constrains the second reading to be at least the first;
* Python exception propagation is an explicit `err` result carrying the
  connection state at the moment of the raise.
-/

/-- One row of the `employees` table as the program writes it:
`full_name`, `birth_date` (ISO-8601 text) and `gender`, all TEXT. -/
structure Employee where
  full_name : String
  birth_date : String
  gender : String
deriving DecidableEq, Repr

/-- The SQLite connection state: `committed` is the durable content of the
`employees` table, `pending` the rows inserted by the cursor in the currently
open transaction (visible only to this connection, lost on close without
commit), `hasIndex` whether `idx_gender_name` exists. -/
structure Db where
  committed : List Employee
  pending : List Employee
  hasIndex : Bool
deriving DecidableEq, Repr

/-- A fresh database right after `create_table` on an empty file. -/
def emptyDb : Db := ⟨[], [], false⟩

/-- Python exceptions the embedded fragments can raise:
`storage msg` is an `sqlite3` error with the message the driver produced,
`zeroDivision` is `ZeroDivisionError` from `/` with a zero denominator. -/
inductive PyError where
  | storage (msg : String)
  | zeroDivision
deriving DecidableEq, Repr

/-- Result of running a stateful fragment: either a value and the connection
state, or a raised exception and the connection state at the raise. -/
inductive DbResult (σ : Type) (α : Type) where
  | ok (a : α) (s : σ)
  | err (e : PyError) (s : σ)
deriving DecidableEq, Repr

/-- A failure specification for one `executemany` call: `none` means the call
succeeds, `some (k, msg)` means the driver raises an error with message `msg`
after the first `k` parameter rows were executed into the open transaction. -/
def FailSpec : Type := Option (Nat × String)

/-- `cursor.executemany("INSERT INTO employees (full_name, birth_date, gender)
VALUES (?, ?, ?)", data)` (`Employee.batch_save`, app.py:29-34): each executed
row joins the open transaction; on an injected failure the rows executed before
the raise stay in the open transaction and the exception propagates. -/
def executemany (db : Db) (rows : List Employee) (f : FailSpec) : DbResult Db Unit :=
  match f with
  | none => .ok () { db with pending := db.pending ++ rows }
  | some (k, msg) => .err (.storage msg) { db with pending := db.pending ++ rows.take k }

/-- `conn.commit()`: the open transaction becomes durable. -/
def commit (db : Db) : Db :=
  { db with committed := db.committed ++ db.pending, pending := [] }

/-- `conn.close()` on a connection with an open transaction: sqlite3 rolls the
uncommitted rows back (app.py:181-182, reached via the `finally` of `main`). -/
def closeConn (db : Db) : Db :=
  { db with pending := [] }

/-- `insert_batch`: `Employee.batch_save(cursor, employees)` followed by
`self.conn.commit()`, as the loader performs it (app.py:116-123). If the
`executemany` raises, the exception propagates and the commit never runs. -/
def insertBatch (db : Db) (rows : List Employee) (f : FailSpec) : DbResult Db Unit :=
  match executemany db rows f with
  | .ok _ db2 => .ok () (commit db2)
  | .err e db2 => .err e db2

/-- `SELECT full_name, birth_date, gender FROM employees WHERE gender = 'Male'
AND full_name LIKE 'F%'` (app.py:148-153). SQLite `=` on TEXT is byte
comparison; `LIKE` is case-insensitive on ASCII by default, so `'F%'` accepts a
leading `F` or `f`. The query reads the connection's view of the table; in
every reachable state of this program `pending` is empty when it runs. -/
def queryMaleF (db : Db) : List Employee :=
  (db.committed ++ db.pending).filter
    (fun e => e.gender = "Male" ∧ (e.full_name.startsWith "F" ∨ e.full_name.startsWith "f"))

/-- `CREATE INDEX IF NOT EXISTS idx_gender_name ON employees(gender, full_name)`
plus commit (`optimize_database`, app.py:175-179): only the index flag changes. -/
def optimizeDatabase (db : Db) : Db :=
  { db with hasIndex := true }

/-- Loader state: the connection plus the trace of `batch_save` calls made so
far (each entry is the row list passed to one `executemany`). -/
structure LoadState where
  db : Db
  calls : List (List Employee)
deriving DecidableEq, Repr

/-- One flush of the loader's buffer: `Employee.batch_save(self.cursor, employees)`
then `self.conn.commit()` (app.py:117-118 and 122-123), recorded in the call
trace. On failure the exception propagates with the state at the raise. -/
def insertBatchT (st : LoadState) (rows : List Employee) (f : FailSpec) :
    DbResult LoadState Unit :=
  match insertBatch st.db rows f with
  | .ok _ db2 => .ok () ⟨db2, st.calls ++ [rows]⟩
  | .err e db2 => .err e ⟨db2, st.calls ++ [rows]⟩

/-- The buffering loop of `generate_random_employees` (app.py:95-123) over an
already-generated record list, with the literal batch size `1000` generalised
to `bs` (the spec's `batch_size`): append each record to the buffer, flush via
`insert_batch` as soon as the buffer reaches `bs`, and flush the non-empty
remainder after the loop. `sched i` is the environment's outcome for the i-th
`executemany` still to come; a raised storage error aborts the remaining load
(the exception propagates out of the loop). -/
def loadLoop (bs : Nat) : (Nat → FailSpec) → LoadState → List Employee →
    List Employee → DbResult LoadState Unit
  | sched, st, buffer, [] =>
      if buffer.isEmpty then .ok () st
      else insertBatchT st buffer (sched 0)
  | sched, st, buffer, r :: rest =>
      let buf := buffer ++ [r]
      if bs ≤ buf.length then
        match insertBatchT st buf (sched 0) with
        | .ok _ st2 => loadLoop bs (fun i => sched (i + 1)) st2 [] rest
        | .err e st2 => .err e st2
      else loadLoop bs sched st buf rest

/-- The bulk load: run the buffering loop from an empty buffer and an empty
call trace (`employees = []`, app.py:95). The Python function returns `None`;
here the `ok` payload is correspondingly `Unit`. -/
def load (db : Db) (records : List Employee) (bs : Nat) (sched : Nat → FailSpec) :
    DbResult LoadState Unit :=
  loadLoop bs sched ⟨db, []⟩ [] records

/-- Environment in which every `executemany` succeeds. -/
def noFail : Nat → FailSpec := fun _ => none

/-- Environment in which the `executemany` of call index `j` raises a storage
error with message `msg` after `k` rows, and every other call succeeds. -/
def failAtCall (j k : Nat) (msg : String) : Nat → FailSpec :=
  fun i => if i = j then some (k, msg) else none

/-- The batches the loader's buffering produces, computed directly: same
buffer discipline as `loadLoop`, without the database. -/
def chunksAux (bs : Nat) : List Employee → List Employee → List (List Employee)
  | buffer, [] => if buffer.isEmpty then [] else [buffer]
  | buffer, r :: rest =>
      let buf := buffer ++ [r]
      if bs ≤ buf.length then buf :: chunksAux bs [] rest
      else chunksAux bs buf rest

/-- The batch decomposition of a record list at batch size `bs`. -/
def chunks (bs : Nat) (records : List Employee) : List (List Employee) :=
  chunksAux bs [] records

/-- What the program surfaces at the boundary for a bulk load: the success
banner of app.py:143, or the generic handler of app.py:247 with the
exception's message. -/
def errMsg : PyError → String
  | .storage m => m
  | .zeroDivision => "division by zero"

/-- Boundary output of mode 4's load (app.py:143 / app.py:246-247). -/
def mode4Surfaced : DbResult LoadState Unit → String
  | .ok _ _ => "[SUCCESS] Data generation completed successfully"
  | .err e _ => "[ERROR] An error occurred: " ++ errMsg e

/-- Final loader state, whichever way the load ended. -/
def outState : DbResult LoadState Unit → LoadState
  | .ok _ s => s
  | .err _ s => s

/-- The decimal digit character of `d` (for `d < 10`). -/
def digitChar (d : Nat) : Char := Char.ofNat (48 + d)

/-- The two characters `%02d` prints for `0 ≤ n ≤ 99`. -/
def twoDigits (n : Nat) : List Char := [digitChar (n / 10 % 10), digitChar (n % 10)]

/-- The four characters the f-string prints for a year with `1000 ≤ n ≤ 9999`
(every year the generator draws is in [1950, 2005]). -/
def fourDigits (n : Nat) : List Char :=
  [digitChar (n / 1000 % 10), digitChar (n / 100 % 10),
   digitChar (n / 10 % 10), digitChar (n % 10)]

/-- `f"{year}-{month:02d}-{day:02d}"` (app.py:112 and app.py:136), on the
generator's domain: four year digits, dash, two month digits, dash, two day
digits. -/
def fmtDate (y m d : Nat) : String :=
  String.mk (fourDigits y ++ '-' :: twoDigits m ++ '-' :: twoDigits d)

/-- Numeric value of a digit character. -/
def digitVal (c : Char) : Nat := c.toNat - 48

/-- ISO-8601 calendar-date syntax `YYYY-MM-DD`: exactly ten characters,
digits in the date positions and dashes between the groups. -/
def parseISOChars : List Char → Option (Nat × Nat × Nat)
  | [y1, y2, y3, y4, s1, m1, m2, s2, d1, d2] =>
      if s1 = '-' ∧ s2 = '-' ∧ y1.isDigit ∧ y2.isDigit ∧ y3.isDigit ∧ y4.isDigit ∧
          m1.isDigit ∧ m2.isDigit ∧ d1.isDigit ∧ d2.isDigit then
        some (((digitVal y1 * 10 + digitVal y2) * 10 + digitVal y3) * 10 + digitVal y4,
              digitVal m1 * 10 + digitVal m2,
              digitVal d1 * 10 + digitVal d2)
      else none
  | _ => none

/-- Parse an ISO-8601 `YYYY-MM-DD` date string into (year, month, day). -/
def parseISO (s : String) : Option (Nat × Nat × Nat) := parseISOChars s.data

def firstNamesMale : List String :=
  ["Ivan", "Petr", "Sergey", "Andrey", "Alexey", "Dmitry", "Mikhail", "Nikolay"]

def firstNamesFemale : List String :=
  ["Anna", "Maria", "Elena", "Olga", "Tatyana", "Natalia", "Irina", "Svetlana"]

def lastNames : List String :=
  ["Ivanov", "Petrov", "Sidorov", "Smirnov", "Kuznetsov", "Popov", "Volkov", "Fedorov"]

def middleNames : List String :=
  ["Ivanovich", "Petrovich", "Sergeevich", "Andreevich", "Alexeevich",
   "Ivanovna", "Petrovna", "Sergeevna", "Andreevna", "Alexeevna"]

def fSuffixes : List String := ["isher", "ord", "letcher", "ranklin", "erguson"]

/-- `random.choice(pool)`: the element the environment's raw draw `r` selects;
every index of the pool is reachable and nothing outside it is. -/
def choice (pool : List String) (r : Nat) : String := pool.getD (r % pool.length) ""

/-- `random.randint(a, b)`: the integer in the inclusive range `[a, b]` the
environment's raw draw `r` selects. -/
def randint (a b : Nat) (r : Nat) : Nat := a + r % (b - a + 1)

/-- One iteration of the bulk-generation loop (app.py:97-114); `g j` is the
environment's j-th raw draw of this iteration, in the call order of the body:
gender, first name, middle name, last name, year, month, day. -/
def mkRandomEmployee (g : Nat → Nat) : Employee :=
  let gender := choice ["Male", "Female"] (g 0)
  let first_name := if gender = "Male" then choice firstNamesMale (g 1)
    else choice firstNamesFemale (g 1)
  let middle_name := if gender = "Male" then choice (middleNames.take 5) (g 2)
    else choice (middleNames.drop 5) (g 2)
  let last_name := choice lastNames (g 3)
  let year := randint 1950 2005 (g 4)
  let month := randint 1 12 (g 5)
  let day := randint 1 28 (g 6)
  ⟨last_name ++ " " ++ first_name ++ " " ++ middle_name, fmtDate year month day, gender⟩

/-- The bulk generator: `n` loop iterations, the i-th using draws `g i`
(app.py:97, `for i in range(count)`). -/
def generate (n : Nat) (g : Nat → Nat → Nat) : List Employee :=
  (List.range n).map (fun i => mkRandomEmployee (g i))

/-- One iteration of the targeted loop (app.py:127-138): gender fixed `Male`,
last name `"F"` plus a suffix drawn from the F pool. Draw order: first name,
middle name, suffix, year, month, day. -/
def mkTargetedEmployee (g : Nat → Nat) : Employee :=
  let first_name := choice firstNamesMale (g 0)
  let middle_name := choice (middleNames.take 5) (g 1)
  let last_name := "F" ++ choice fSuffixes (g 2)
  let year := randint 1950 2005 (g 3)
  let month := randint 1 12 (g 4)
  let day := randint 1 28 (g 5)
  ⟨last_name ++ " " ++ first_name ++ " " ++ middle_name, fmtDate year month day, "Male"⟩

/-- The targeted generator, `n` iterations (app.py:127 runs it with 100). -/
def generateTargeted (n : Nat) (g : Nat → Nat → Nat) : List Employee :=
  (List.range n).map (fun i => mkTargetedEmployee (g i))

/-- One run of `query_male_f_surnames` (app.py:145-173): it executes the
filter query once, takes a `time.time()` reading before (`t0`) and after
(`t1`), and returns the difference; the fetched rows are what it printed.
`time.time()` is the wall clock of day, so an adjustment during the query can
make `t1` smaller than `t0`. -/
structure Bench where
  results : List Employee
  elapsed : ℚ
deriving DecidableEq, Repr

/-- `query_male_f_surnames` with the two wall-clock readings injected. -/
def queryBench (db : Db) (t0 t1 : ℚ) : Bench :=
  ⟨queryMaleF db, t1 - t0⟩

/-- Python `/` semantics: a zero denominator raises `ZeroDivisionError`,
otherwise the quotient is produced. -/
def pyDiv (a b : ℚ) : Except PyError ℚ :=
  if b = 0 then .error .zeroDivision else .ok (a / b)

/-- What CLI mode 6 produces (app.py:221-237): the benchmark before
`optimize_database`, the benchmark after, and the unconditionally computed
`improvement = (time_before - time_after)/time_before * 100`, which raises if
`time_before` is zero. The four wall-clock readings are injected. -/
structure Mode6Out where
  before : Bench
  after : Bench
  improvement : Except PyError ℚ

/-- CLI mode 6 (`main`, app.py:221-237). -/
def mode6 (db : Db) (t0 t1 t2 t3 : ℚ) : Mode6Out :=
  let b := queryBench db t0 t1
  let db2 := optimizeDatabase db
  let a := queryBench db2 t2 t3
  ⟨b, a, (pyDiv (b.elapsed - a.elapsed) b.elapsed).map (fun q => q * 100)⟩

/-- Two rows agree on the deduplication key (full_name, birth_date). -/
def sameKey (a b : Employee) : Prop :=
  a.full_name = b.full_name ∧ a.birth_date = b.birth_date

instance (a b : Employee) : Decidable (sameKey a b) :=
  inferInstanceAs (Decidable (_ ∧ _))

/-- The `ORDER BY full_name` comparison (SQLite BINARY collation on TEXT). -/
def byName (a b : Employee) : Prop := a.full_name ≤ b.full_name

instance : DecidableRel byName :=
  fun a b => inferInstanceAs (Decidable (a.full_name ≤ b.full_name))

instance : IsTotal Employee byName :=
  ⟨fun a b => le_total a.full_name b.full_name⟩

instance : IsTrans Employee byName :=
  ⟨fun _ _ _ h1 h2 => le_trans h1 h2⟩

/-- `GROUP BY full_name, birth_date` over the scan (app.py:66-71): one output
row per distinct key, in scan order. SQLite leaves the row supplying the bare
`gender` column unspecified ("an arbitrary row of the group"); the scan's
first row of each group is taken here. `seen` holds the keys already
emitted. -/
def groupByKey (seen : List (String × String)) : List Employee → List Employee
  | [] => []
  | e :: rest =>
      if (e.full_name, e.birth_date) ∈ seen then groupByKey seen rest
      else e :: groupByKey ((e.full_name, e.birth_date) :: seen) rest

/-- `ORDER BY full_name` ascending (ties in unspecified order; an insertion
sort fixes one such order). -/
def sortByName (l : List Employee) : List Employee := l.insertionSort byName

/-- `list_distinct`: the SELECT of `display_all_employees` (app.py:65-72),
`SELECT DISTINCT full_name, birth_date, gender FROM employees GROUP BY
full_name, birth_date ORDER BY full_name`, read over the committed table (the
grouping already makes the key distinct, so DISTINCT adds nothing). The
statement writes nothing: the connection state comes back unchanged. -/
def listDistinct (db : Db) : List Employee × Db :=
  (sortByName (groupByKey [] db.committed), db)

/-- A sample row, the one §8's scenario inserts by hand. -/
def eIvanov : Employee :=
  ⟨"Ivanov Ivan Ivanovich", "1990-05-15", "Male"⟩

theorem loadLoop_nil (bs : Nat) (sched : Nat → FailSpec) (st : LoadState)
    (buffer : List Employee) :
    loadLoop bs sched st buffer [] =
      if buffer.isEmpty then .ok () st else insertBatchT st buffer (sched 0) := by
  rfl

theorem loadLoop_cons (bs : Nat) (sched : Nat → FailSpec) (st : LoadState)
    (buffer : List Employee) (r : Employee) (rest : List Employee) :
    loadLoop bs sched st buffer (r :: rest) =
      if bs ≤ buffer.length + 1 then
        match insertBatchT st (buffer ++ [r]) (sched 0) with
        | .ok _ st2 => loadLoop bs (fun i => sched (i + 1)) st2 [] rest
        | .err e st2 => .err e st2
      else loadLoop bs sched st (buffer ++ [r]) rest := by
  simp [loadLoop]

theorem chunksAux_nil (bs : Nat) (buffer : List Employee) :
    chunksAux bs buffer [] = if buffer.isEmpty then [] else [buffer] := by
  rfl

theorem chunksAux_cons (bs : Nat) (buffer : List Employee) (r : Employee)
    (rest : List Employee) :
    chunksAux bs buffer (r :: rest) =
      if bs ≤ buffer.length + 1 then (buffer ++ [r]) :: chunksAux bs [] rest
      else chunksAux bs (buffer ++ [r]) rest := by
  simp [chunksAux]

theorem insertBatchT_none (st : LoadState) (rows : List Employee) :
    insertBatchT st rows none =
      .ok () ⟨commit { st.db with pending := st.db.pending ++ rows },
        st.calls ++ [rows]⟩ := by
  rfl

theorem insertBatchT_some (st : LoadState) (rows : List Employee) (k : Nat)
    (msg : String) :
    insertBatchT st rows (some (k, msg)) =
      .err (.storage msg) ⟨{ st.db with pending := st.db.pending ++ rows.take k },
        st.calls ++ [rows]⟩ := by
  rfl

theorem chunksAux_flatten (bs : Nat) :
    ∀ (rest buffer : List Employee), (chunksAux bs buffer rest).flatten = buffer ++ rest := by
  intro rest
  induction rest with
  | nil =>
    intro buffer
    by_cases hb : buffer.isEmpty
    · simp [chunksAux_nil, hb, List.isEmpty_iff.mp hb]
    · simp [chunksAux_nil, hb]
  | cons r rest ih =>
    intro buffer
    by_cases hflush : bs ≤ buffer.length + 1
    · simp [chunksAux_cons, hflush, ih]
    · simp [chunksAux_cons, hflush, ih]

theorem loadLoop_ok (bs : Nat) :
    ∀ (rest buffer : List Employee) (st : LoadState) (sched : Nat → FailSpec),
    st.db.pending = [] → (∀ i, sched i = none) →
    ∃ st2, loadLoop bs sched st buffer rest = .ok () st2 ∧
      st2.db.committed = st.db.committed ++ buffer ++ rest ∧
      st2.db.pending = [] ∧
      st2.db.hasIndex = st.db.hasIndex ∧
      st2.calls = st.calls ++ chunksAux bs buffer rest := by
  intro rest
  induction rest with
  | nil =>
    intro buffer st sched hp hs
    by_cases hb : buffer.isEmpty
    · refine ⟨st, ?_, ?_, hp, rfl, ?_⟩
      · simp [loadLoop_nil, hb]
      · simp [List.isEmpty_iff.mp hb]
      · simp [chunksAux_nil, hb]
    · refine ⟨⟨commit { st.db with pending := st.db.pending ++ buffer },
        st.calls ++ [buffer]⟩, ?_, ?_, ?_, ?_, ?_⟩
      · simp [loadLoop_nil, hb, hs 0, insertBatchT_none]
      · simp [commit, hp]
      · simp [commit]
      · simp [commit]
      · simp [chunksAux_nil, hb]
  | cons r rest ih =>
    intro buffer st sched hp hs
    by_cases hflush : bs ≤ buffer.length + 1
    · have hs2 : ∀ i, (fun i => sched (i + 1)) i = none := fun i => hs (i + 1)
      obtain ⟨st2, h1, h2, h3, h4, h5⟩ :=
        ih [] ⟨commit { st.db with pending := st.db.pending ++ (buffer ++ [r]) },
          st.calls ++ [buffer ++ [r]]⟩ (fun i => sched (i + 1)) (by simp [commit]) hs2
      refine ⟨st2, ?_, ?_, h3, ?_, ?_⟩
      · rw [loadLoop_cons, if_pos hflush, hs 0, insertBatchT_none]
        exact h1
      · simp only [commit, hp] at h2
        simp only [h2]
        simp
      · simpa [commit] using h4
      · rw [chunksAux_cons, if_pos hflush]
        simp only [commit] at h5
        simp only [h5]
        simp
    · obtain ⟨st2, h1, h2, h3, h4, h5⟩ := ih (buffer ++ [r]) st sched hp hs
      refine ⟨st2, ?_, ?_, h3, h4, ?_⟩
      · rw [loadLoop_cons, if_neg hflush]
        exact h1
      · simp only [h2]
        simp
      · rw [chunksAux_cons, if_neg hflush]
        exact h5

theorem loadLoop_err (bs : Nat) :
    ∀ (rest buffer : List Employee) (st : LoadState) (sched : Nat → FailSpec)
      (j k : Nat) (msg : String),
    st.db.pending = [] →
    (∀ i, i < j → sched i = none) →
    sched j = some (k, msg) →
    j < (chunksAux bs buffer rest).length →
    ∃ st2, loadLoop bs sched st buffer rest = .err (.storage msg) st2 ∧
      st2.db.committed = st.db.committed ++ ((chunksAux bs buffer rest).take j).flatten ∧
      st2.db.pending = (((chunksAux bs buffer rest).getD j []).take k) ∧
      (closeConn st2.db).committed =
        st.db.committed ++ ((chunksAux bs buffer rest).take j).flatten ∧
      (closeConn st2.db).pending = [] := by
  intro rest
  induction rest with
  | nil =>
    intro buffer st sched j k msg hp hlt hj hlen
    by_cases hb : buffer.isEmpty
    · rw [chunksAux_nil, if_pos hb] at hlen
      simp at hlen
    · rw [chunksAux_nil, if_neg hb] at hlen
      have hj0 : j = 0 := by simpa using Nat.lt_one_iff.mp (by simpa using hlen)
      subst hj0
      refine ⟨⟨{ st.db with pending := st.db.pending ++ buffer.take k },
        st.calls ++ [buffer]⟩, ?_, ?_, ?_, ?_, ?_⟩
      · rw [loadLoop_nil, if_neg hb, hj, insertBatchT_some]
      · simp [chunksAux_nil, hb]
      · simp [chunksAux_nil, hb, hp]
      · simp [chunksAux_nil, hb, closeConn]
      · simp [closeConn]
  | cons r rest ih =>
    intro buffer st sched j k msg hp hlt hj hlen
    by_cases hflush : bs ≤ buffer.length + 1
    · cases j with
      | zero =>
        refine ⟨⟨{ st.db with pending := st.db.pending ++ (buffer ++ [r]).take k },
          st.calls ++ [buffer ++ [r]]⟩, ?_, ?_, ?_, ?_, ?_⟩
        · rw [loadLoop_cons, if_pos hflush, hj, insertBatchT_some]
        · simp
        · simp [chunksAux_cons, hflush, hp]
        · simp [closeConn]
        · simp [closeConn]
      | succ j' =>
        have hs0 : sched 0 = none := hlt 0 (Nat.succ_pos j')
        rw [chunksAux_cons, if_pos hflush] at hlen
        have hlen' : j' < (chunksAux bs [] rest).length := by
          simpa using Nat.lt_of_succ_lt_succ (by simpa using hlen)
        obtain ⟨st2, h1, h2, h3, h4, h5⟩ :=
          ih [] ⟨commit { st.db with pending := st.db.pending ++ (buffer ++ [r]) },
            st.calls ++ [buffer ++ [r]]⟩ (fun i => sched (i + 1)) j' k msg
            (by simp [commit])
            (fun i hi => hlt (i + 1) (Nat.succ_lt_succ hi))
            hj hlen'
        refine ⟨st2, ?_, ?_, ?_, ?_, ?_⟩
        · rw [loadLoop_cons, if_pos hflush, hs0, insertBatchT_none]
          exact h1
        · rw [chunksAux_cons, if_pos hflush]
          simp only [commit, hp] at h2
          simp only [h2]
          simp
        · rw [chunksAux_cons, if_pos hflush]
          simpa using h3
        · rw [chunksAux_cons, if_pos hflush]
          simp only [commit, hp] at h4
          simp only [h4]
          simp
        · exact h5
    · obtain ⟨st2, h1, h2, h3, h4, h5⟩ :=
        ih (buffer ++ [r]) st sched j k msg hp hlt hj
          (by rw [chunksAux_cons, if_neg hflush] at hlen; exact hlen)
      refine ⟨st2, ?_, ?_, ?_, ?_, ?_⟩
      · rw [loadLoop_cons, if_neg hflush]
        exact h1
      · rw [chunksAux_cons, if_neg hflush]
        exact h2
      · rw [chunksAux_cons, if_neg hflush]
        exact h3
      · rw [chunksAux_cons, if_neg hflush]
        exact h4
      · exact h5

theorem chunksAux_shape (bs : Nat) :
    ∀ (rest buffer : List Employee), buffer.length < bs →
      (∀ c ∈ chunksAux bs buffer rest, c ≠ [] ∧ c.length ≤ bs) ∧
      (∀ i, i + 1 < (chunksAux bs buffer rest).length →
        ((chunksAux bs buffer rest).getD i []).length = bs) := by
  intro rest
  induction rest with
  | nil =>
    intro buffer hb
    constructor
    · intro c hc
      rw [chunksAux_nil] at hc
      by_cases he : buffer.isEmpty
      · simp [he] at hc
      · simp [he] at hc
        subst hc
        exact ⟨fun h => he (by simp [h]), Nat.le_of_lt hb⟩
    · intro i hi
      rw [chunksAux_nil] at hi
      by_cases he : buffer.isEmpty
      · simp [he] at hi
      · simp [he] at hi
  | cons r rest ih =>
    intro buffer hb
    by_cases hflush : bs ≤ buffer.length + 1
    · have hfull : buffer.length + 1 = bs := Nat.le_antisymm hb hflush
      obtain ⟨ihm, ihg⟩ := ih [] (by simp only [List.length_nil]; omega)
      constructor
      · intro c hc
        rw [chunksAux_cons, if_pos hflush] at hc
        rcases List.mem_cons.mp hc with hc | hc
        · subst hc
          exact ⟨by simp, by simp [hfull]⟩
        · exact ihm c hc
      · intro i hi
        rw [chunksAux_cons, if_pos hflush] at hi ⊢
        cases i with
        | zero => simp [hfull]
        | succ i' =>
          simp only [List.getD_cons_succ]
          exact ihg i' (by simpa using Nat.lt_of_succ_lt_succ (by simpa using hi))
    · have hb2 : (buffer ++ [r]).length < bs := by
        simp only [List.length_append, List.length_cons, List.length_nil]
        omega
      obtain ⟨ihm, ihg⟩ := ih (buffer ++ [r]) hb2
      constructor
      · intro c hc
        rw [chunksAux_cons, if_neg hflush] at hc
        exact ihm c hc
      · intro i hi
        rw [chunksAux_cons, if_neg hflush] at hi ⊢
        exact ihg i hi

theorem chunksAux_exact (bs : Nat) :
    ∀ (rest buffer : List Employee), rest ≠ [] → buffer.length + rest.length = bs →
      chunksAux bs buffer rest = [buffer ++ rest] := by
  intro rest
  induction rest with
  | nil => intro buffer hne; exact absurd rfl hne
  | cons r rest ih =>
    intro buffer _ hlen
    cases rest with
    | nil =>
      have hflush : bs ≤ buffer.length + 1 := by
        simp only [List.length_cons, List.length_nil] at hlen
        omega
      rw [chunksAux_cons, if_pos hflush, chunksAux_nil]
      simp
    | cons r2 rest2 =>
      have hnoflush : ¬ bs ≤ buffer.length + 1 := by
        simp only [List.length_cons] at hlen
        omega
      rw [chunksAux_cons, if_neg hnoflush,
        ih (buffer ++ [r]) (by simp) (by simp only [List.length_append,
          List.length_cons, List.length_nil] at hlen ⊢; omega)]
      simp

/-- C1 — `insert_batch` (batch_save then commit) either commits exactly the
`len(records)` given rows, leaving no open transaction, or fails with the
committed table unchanged; the partial rows of a failed batch sit only in the
open transaction, which the `finally close()` then discards, so no partial
batch is ever committed. Stated for call states with no open transaction,
which is every call state the program reaches. -/
theorem C1_insert_batch_atomic (db : Db) (rows : List Employee) (f : FailSpec)
    (h : db.pending = []) :
    (∀ db2, insertBatch db rows f = .ok () db2 →
      db2.committed = db.committed ++ rows ∧
      db2.committed.length = db.committed.length + rows.length ∧
      db2.pending = []) ∧
    (∀ e db2, insertBatch db rows f = .err e db2 →
      db2.committed = db.committed ∧
      (closeConn db2).committed = db.committed ∧
      (closeConn db2).pending = []) := by
  constructor
  · intro db2 hok
    cases f with
    | none =>
      simp only [insertBatch, executemany] at hok
      cases hok
      simp [commit, h]
    | some p =>
      simp [insertBatch, executemany] at hok
  · intro e db2 herr
    cases f with
    | none =>
      simp [insertBatch, executemany] at herr
    | some p =>
      simp only [insertBatch, executemany] at herr
      cases herr
      simp [closeConn]

/-- Witness for C1 at a concrete batch: inserting two rows into the fresh
database commits exactly those two rows. -/
theorem C1_insert_batch_atomic_witness :
    emptyDb.pending = [] ∧
    (Db.mk [Employee.mk "Ivanov Ivan Ivanovich" "1990-05-15" "Male",
            Employee.mk "Petrov Petr Petrovich" "1985-03-02" "Male"] [] false).committed
      = emptyDb.committed ++
        [Employee.mk "Ivanov Ivan Ivanovich" "1990-05-15" "Male",
         Employee.mk "Petrov Petr Petrovich" "1985-03-02" "Male"] :=
  ⟨rfl,
    (((C1_insert_batch_atomic emptyDb
      [Employee.mk "Ivanov Ivan Ivanovich" "1990-05-15" "Male",
       Employee.mk "Petrov Petr Petrovich" "1985-03-02" "Male"] none rfl).1) _ rfl).1⟩

/-- C7 — the loader buffers into batches of exactly `batch_size`: the sequence
of `insert_batch` calls of a successful load is the batch decomposition of the
input (concatenating to the input, every batch non-empty and at most
`batch_size` long, every batch but the last exactly `batch_size` long), the
table gains exactly the input rows; and an input of exactly `batch_size`
records (the 1000/1000 scenario) causes exactly one `insert_batch` call,
carrying all 1000 rows, after which the row count is the input length. -/
theorem C7_batch_decomposition (records : List Employee) (db : Db) (bs : Nat)
    (hbs : 0 < bs) (hp : db.pending = []) :
    (∃ st2, load db records bs noFail = .ok () st2 ∧
      st2.calls = chunks bs records ∧
      st2.db.committed = db.committed ++ records ∧
      st2.db.committed.length = db.committed.length + records.length ∧
      st2.db.pending = []) ∧
    (chunks bs records).flatten = records ∧
    (∀ c ∈ chunks bs records, c ≠ [] ∧ c.length ≤ bs) ∧
    (∀ i, i + 1 < (chunks bs records).length →
      ((chunks bs records).getD i []).length = bs) ∧
    (records.length = bs → chunks bs records = [records]) := by
  refine ⟨?_, ?_, ?_, ?_, ?_⟩
  · obtain ⟨st2, h1, h2, h3, h4, h5⟩ :=
      loadLoop_ok bs records [] ⟨db, []⟩ noFail hp (fun _ => rfl)
    exact ⟨st2, h1, by simpa [chunks] using h5, by simpa using h2,
      by simp [h2], h3⟩
  · simpa using chunksAux_flatten bs records []
  · exact (chunksAux_shape bs records [] (by simpa using hbs)).1
  · exact (chunksAux_shape bs records [] (by simpa using hbs)).2
  · intro hlen
    have hne : records ≠ [] := by
      intro h
      rw [h] at hlen
      simp at hlen
      omega
    simpa using chunksAux_exact bs records [] hne (by simpa using hlen)

/-- Witness for C7: loading exactly 1000 copies of the sample row at batch
size 1000 into the fresh store makes one `insert_batch` call of all 1000 rows
and a row count of 1000. -/
theorem C7_batch_decomposition_witness :
    chunks 1000 (List.replicate 1000 eIvanov) = [List.replicate 1000 eIvanov] :=
  (C7_batch_decomposition (List.replicate 1000 eIvanov) emptyDb 1000
    (by decide) rfl).2.2.2.2 (by rw [List.length_replicate])

/-- C2 counterexample — the load surfaces no count. Two failing loads that
committed different numbers of rows (4 versus 2) produce byte-identical
boundary output, and two successful loads of different lengths (1 versus 2
records) also produce byte-identical output; the Python function's return
value is `None` in every case. So neither the success output nor the failure
output is `len(records)` or the number of records committed so far, refuting
the claim's "returns the total number of records inserted" and "surfaces the
count of records successfully committed so far". -/
theorem C2_count_never_surfaced :
    mode4Surfaced (load emptyDb (List.replicate 5 eIvanov) 1
        (failAtCall 4 0 "disk I/O error"))
      = mode4Surfaced (load emptyDb (List.replicate 3 eIvanov) 1
        (failAtCall 2 0 "disk I/O error")) ∧
    (outState (load emptyDb (List.replicate 5 eIvanov) 1
        (failAtCall 4 0 "disk I/O error"))).db.committed.length = 4 ∧
    (outState (load emptyDb (List.replicate 3 eIvanov) 1
        (failAtCall 2 0 "disk I/O error"))).db.committed.length = 2 ∧
    mode4Surfaced (load emptyDb [eIvanov] 1000 noFail)
      = mode4Surfaced (load emptyDb [eIvanov, eIvanov] 1000 noFail) :=
  ⟨rfl, rfl, rfl, rfl⟩

/-- C2 amended — the bulk load commits every record on success and, when the
`executemany` of batch `j` fails, aborts the remaining load fail-fast with
exactly the first `j` batches committed (the failing batch's rows are rolled
back at close); but it returns no count: success returns `None` and a failure
surfaces only the error message, never the number committed so far. -/
theorem C2_load_fail_fast (db : Db) (records : List Employee) (bs : Nat)
    (hp : db.pending = []) :
    (∀ sched, (∀ i, sched i = none) →
      ∃ st2, load db records bs sched = .ok () st2 ∧
        st2.db.committed = db.committed ++ records ∧
        st2.db.pending = []) ∧
    (∀ j k msg, j < (chunks bs records).length →
      ∃ st2, load db records bs (failAtCall j k msg) = .err (.storage msg) st2 ∧
        st2.db.committed = db.committed ++ ((chunks bs records).take j).flatten ∧
        (closeConn st2.db).committed =
          db.committed ++ ((chunks bs records).take j).flatten ∧
        (closeConn st2.db).pending = []) := by
  constructor
  · intro sched hs
    obtain ⟨st2, h1, h2, h3, _, _⟩ := loadLoop_ok bs records [] ⟨db, []⟩ sched hp hs
    exact ⟨st2, h1, by simpa using h2, h3⟩
  · intro j k msg hj
    obtain ⟨st2, h1, h2, _, h4, h5⟩ :=
      loadLoop_err bs records [] ⟨db, []⟩ (failAtCall j k msg) j k msg hp
        (fun i hi => by simp [failAtCall, Nat.ne_of_lt hi])
        (by simp [failAtCall])
        (by simpa [chunks] using hj)
    exact ⟨st2, h1, h2, h4, h5⟩

/-- Witness for C2's amended theorem: a three-record load at batch size 1
whose second `insert_batch` call fails ends with exactly the one record of the
first batch committed, and the same load with no failure commits all three. -/
theorem C2_load_fail_fast_witness :
    emptyDb.pending = [] ∧
    (∃ st2, load emptyDb (List.replicate 3 eIvanov) 1 noFail = .ok () st2 ∧
      st2.db.committed = emptyDb.committed ++ List.replicate 3 eIvanov ∧
      st2.db.pending = []) ∧
    (∃ st2, load emptyDb (List.replicate 3 eIvanov) 1 (failAtCall 1 0 "disk I/O error")
        = .err (.storage "disk I/O error") st2 ∧
      st2.db.committed = emptyDb.committed ++
        ((chunks 1 (List.replicate 3 eIvanov)).take 1).flatten ∧
      (closeConn st2.db).committed = emptyDb.committed ++
        ((chunks 1 (List.replicate 3 eIvanov)).take 1).flatten ∧
      (closeConn st2.db).pending = []) :=
  ⟨rfl,
    (C2_load_fail_fast emptyDb (List.replicate 3 eIvanov) 1 rfl).1 noFail (fun _ => rfl),
    (C2_load_fail_fast emptyDb (List.replicate 3 eIvanov) 1 rfl).2 1 0
      "disk I/O error" (by decide)⟩

theorem digit_facts (d : Nat) (hd : d < 10) :
    (digitChar d).isDigit = true ∧ digitVal (digitChar d) = d := by
  interval_cases d <;> exact ⟨rfl, rfl⟩

theorem randint_bounds (a b r : Nat) (h : a ≤ b) :
    a ≤ randint a b r ∧ randint a b r ≤ b := by
  have hm : r % (b - a + 1) < b - a + 1 := Nat.mod_lt _ (by omega)
  unfold randint
  omega

theorem parseISO_fmtDate (y m d : Nat) (hy1 : 1000 ≤ y) (hy2 : y ≤ 9999)
    (hm : m ≤ 99) (hd : d ≤ 99) :
    parseISO (fmtDate y m d) = some (y, m, d) := by
  have h1 := digit_facts (y / 1000 % 10) (Nat.mod_lt _ (by norm_num))
  have h2 := digit_facts (y / 100 % 10) (Nat.mod_lt _ (by norm_num))
  have h3 := digit_facts (y / 10 % 10) (Nat.mod_lt _ (by norm_num))
  have h4 := digit_facts (y % 10) (Nat.mod_lt _ (by norm_num))
  have h5 := digit_facts (m / 10 % 10) (Nat.mod_lt _ (by norm_num))
  have h6 := digit_facts (m % 10) (Nat.mod_lt _ (by norm_num))
  have h7 := digit_facts (d / 10 % 10) (Nat.mod_lt _ (by norm_num))
  have h8 := digit_facts (d % 10) (Nat.mod_lt _ (by norm_num))
  show parseISOChars (fourDigits y ++ '-' :: twoDigits m ++ '-' :: twoDigits d)
    = some (y, m, d)
  simp only [fourDigits, twoDigits, List.cons_append, List.nil_append]
  rw [parseISOChars, if_pos ⟨rfl, rfl, h1.1, h2.1, h3.1, h4.1, h5.1, h6.1, h7.1, h8.1⟩]
  simp only [h1.2, h2.2, h3.2, h4.2, h5.2, h6.2, h7.2, h8.2, Option.some.injEq,
    Prod.mk.injEq]
  refine ⟨?_, ?_, ?_⟩ <;> omega

/-- C5 — `generate(n)` yields exactly `n` records, each with a birth date that
parses back as an ISO-8601 `YYYY-MM-DD` date with year in [1950, 2005], month
in [1, 12] and day in [1, 28]. -/
theorem C5_generate_dates (n : Nat) (g : Nat → Nat → Nat) :
    (generate n g).length = n ∧
    ∀ e ∈ generate n g, ∃ y m d,
      parseISO e.birth_date = some (y, m, d) ∧
      1950 ≤ y ∧ y ≤ 2005 ∧ 1 ≤ m ∧ m ≤ 12 ∧ 1 ≤ d ∧ d ≤ 28 := by
  constructor
  · simp [generate]
  · intro e he
    simp only [generate, List.mem_map, List.mem_range] at he
    obtain ⟨i, _, rfl⟩ := he
    have hy := randint_bounds 1950 2005 (g i 4) (by norm_num)
    have hmo := randint_bounds 1 12 (g i 5) (by norm_num)
    have hda := randint_bounds 1 28 (g i 6) (by norm_num)
    refine ⟨randint 1950 2005 (g i 4), randint 1 12 (g i 5), randint 1 28 (g i 6),
      ?_, hy.1, hy.2, hmo.1, hmo.2, hda.1, hda.2⟩
    show parseISO (fmtDate (randint 1950 2005 (g i 4)) (randint 1 12 (g i 5))
      (randint 1 28 (g i 6))) = _
    exact parseISO_fmtDate _ _ _ (by omega) (by omega) (by omega) (by omega)

/-- Witness for C5: the generator run for one record on the all-zero draw
sequence yields one record whose birth date parses with in-range fields. -/
theorem C5_generate_dates_witness :
    (generate 1 (fun _ _ => 0)).length = 1 ∧
    ∃ y m d, parseISO (mkRandomEmployee (fun _ => 0)).birth_date = some (y, m, d) ∧
      1950 ≤ y ∧ y ≤ 2005 ∧ 1 ≤ m ∧ m ≤ 12 ∧ 1 ≤ d ∧ d ≤ 28 :=
  ⟨(C5_generate_dates 1 (fun _ _ => 0)).1,
   (C5_generate_dates 1 (fun _ _ => 0)).2 (mkRandomEmployee (fun _ => 0))
     (by simp [generate])⟩

/-- C6 — `generate_targeted(n)` yields exactly `n` records, every one with
gender `Male` and a full name whose first character is the configured letter
`F`. -/
theorem C6_targeted_males_F (n : Nat) (g : Nat → Nat → Nat) :
    (generateTargeted n g).length = n ∧
    ∀ e ∈ generateTargeted n g, e.gender = "Male" ∧
      e.full_name.data.head? = some 'F' := by
  constructor
  · simp [generateTargeted]
  · intro e he
    simp only [generateTargeted, List.mem_map, List.mem_range] at he
    obtain ⟨i, _, rfl⟩ := he
    refine ⟨rfl, ?_⟩
    show (("F" ++ choice fSuffixes (g i 2) ++ " " ++ choice firstNamesMale (g i 0)
      ++ " " ++ choice (middleNames.take 5) (g i 1)) : String).data.head? = some 'F'
    simp [String.data_append]

/-- Witness for C6: one targeted record on the all-zero draw sequence is a
male with a name starting in `F`. -/
theorem C6_targeted_males_F_witness :
    (generateTargeted 1 (fun _ _ => 0)).length = 1 ∧
    (mkTargetedEmployee (fun _ => 0)).gender = "Male" ∧
    (mkTargetedEmployee (fun _ => 0)).full_name.data.head? = some 'F' :=
  ⟨(C6_targeted_males_F 1 (fun _ _ => 0)).1,
   (C6_targeted_males_F 1 (fun _ _ => 0)).2 (mkTargetedEmployee (fun _ => 0))
     (by simp [generateTargeted])⟩

/-- C3 counterexample — mode 6 has no undefined-report branch: when the first
benchmark's elapsed time is zero the expression
`(before - after)/before * 100` is evaluated anyway and the division raises
`ZeroDivisionError` (first conjunct), and when the query returns zero rows the
improvement is still computed by division (second and third conjuncts: the
fresh store's query yields no rows, yet the improvement evaluates to 50). -/
theorem C3_division_not_guarded :
    (mode6 emptyDb 0 0 1 2).improvement = .error .zeroDivision ∧
    (mode6 emptyDb 0 2 0 1).before.results = [] ∧
    (mode6 emptyDb 0 2 0 1).improvement = .ok 50 := by
  refine ⟨?_, ?_, ?_⟩
  · norm_num [mode6, queryBench, pyDiv, Except.map]
  · simp [mode6, queryBench, queryMaleF, emptyDb]
  · norm_num [mode6, queryBench, pyDiv, Except.map]

/-- C3 amended — mode 6 computes the improvement expression unconditionally:
it equals `(before - after)/before * 100` whenever the first elapsed value is
nonzero, and raises `ZeroDivisionError` when that value is zero; neither the
table contents nor the result-set size influences this, so a zero-row query
does not suppress the division either. -/
theorem C3_improvement_unconditional (db : Db) (t0 t1 t2 t3 : ℚ) :
    (mode6 db t0 t1 t2 t3).improvement =
      (if t1 - t0 = 0 then .error .zeroDivision
       else .ok ((t1 - t0 - (t3 - t2)) / (t1 - t0) * 100)) := by
  by_cases h : t1 - t0 = 0 <;>
    simp [mode6, queryBench, pyDiv, h, Except.map]

/-- C4 counterexample — "both elapsed durations are ≥ 0" is not unconditional:
with wall-clock readings 5 then 3 around the first query (the clock stepped
back during the run, which `time.time()` permits), the before benchmark's
elapsed value is −2, which is negative. -/
theorem C4_elapsed_can_be_negative :
    (mode6 emptyDb 5 3 3 4).before.elapsed = -2 ∧
    ¬ (0 ≤ (mode6 emptyDb 5 3 3 4).before.elapsed) := by
  constructor
  · norm_num [mode6, queryBench]
  · norm_num [mode6, queryBench]

/-- C4 amended — adding the secondary index never changes the filter query's
result: the after-index benchmark returns exactly the before-index rows (so
the two result sets are set-equal), and when the wall clock does not step
backwards across either run (`t0 ≤ t1` and `t2 ≤ t3` — an assumption
`time.time()` itself does not guarantee) both elapsed durations are ≥ 0. -/
theorem C4_index_preserves_results (db : Db) (t0 t1 t2 t3 : ℚ)
    (h1 : t0 ≤ t1) (h2 : t2 ≤ t3) :
    (mode6 db t0 t1 t2 t3).after.results = (mode6 db t0 t1 t2 t3).before.results ∧
    (∀ e, e ∈ (mode6 db t0 t1 t2 t3).after.results ↔
      e ∈ (mode6 db t0 t1 t2 t3).before.results) ∧
    0 ≤ (mode6 db t0 t1 t2 t3).before.elapsed ∧
    0 ≤ (mode6 db t0 t1 t2 t3).after.elapsed := by
  have hres : (mode6 db t0 t1 t2 t3).after.results
      = (mode6 db t0 t1 t2 t3).before.results := by
    simp [mode6, queryBench, queryMaleF, optimizeDatabase]
  refine ⟨hres, fun e => by rw [hres], ?_, ?_⟩
  · show 0 ≤ t1 - t0
    linarith
  · show 0 ≤ t3 - t2
    linarith

/-- Witness for C4's amended theorem at concrete non-decreasing readings. -/
theorem C4_index_preserves_results_witness :
    (0 : ℚ) ≤ 1 ∧ (2 : ℚ) ≤ 3 ∧
    (mode6 emptyDb 0 1 2 3).after.results = (mode6 emptyDb 0 1 2 3).before.results ∧
    0 ≤ (mode6 emptyDb 0 1 2 3).before.elapsed :=
  ⟨by norm_num, by norm_num,
   (C4_index_preserves_results emptyDb 0 1 2 3 (by norm_num) (by norm_num)).1,
   (C4_index_preserves_results emptyDb 0 1 2 3 (by norm_num) (by norm_num)).2.2.1⟩

/-- C9 — the benchmark's elapsed time is measured with `time.time()`, the wall
clock of day, not a monotonic clock: with readings 5 then 3 (the wall clock
was adjusted backwards during the query) the measured duration is −2,
negative — impossible had a monotonic clock been read, since a monotonic
clock's successive readings never decrease. -/
theorem C9_wall_clock_not_monotonic :
    (queryBench emptyDb 5 3).elapsed = -2 ∧
    (queryBench emptyDb 5 3).elapsed < 0 := by
  constructor
  · norm_num [queryBench]
  · norm_num [queryBench]

theorem groupByKey_subset :
    ∀ (l : List Employee) (seen : List (String × String)),
    ∀ e ∈ groupByKey seen l, e ∈ l := by
  intro l
  induction l with
  | nil => intro seen e he; simp [groupByKey] at he
  | cons h t ih =>
    intro seen e he
    by_cases hs : (h.full_name, h.birth_date) ∈ seen
    · rw [groupByKey, if_pos hs] at he
      exact List.mem_cons_of_mem h (ih seen e he)
    · rw [groupByKey, if_neg hs] at he
      rcases List.mem_cons.mp he with he | he
      · exact he ▸ List.mem_cons_self h t
      · exact List.mem_cons_of_mem h (ih _ e he)

theorem groupByKey_not_seen :
    ∀ (l : List Employee) (seen : List (String × String)),
    ∀ e ∈ groupByKey seen l, (e.full_name, e.birth_date) ∉ seen := by
  intro l
  induction l with
  | nil => intro seen e he; simp [groupByKey] at he
  | cons h t ih =>
    intro seen e he
    by_cases hs : (h.full_name, h.birth_date) ∈ seen
    · rw [groupByKey, if_pos hs] at he
      exact ih seen e he
    · rw [groupByKey, if_neg hs] at he
      rcases List.mem_cons.mp he with he | he
      · exact he ▸ hs
      · intro hmem
        exact ih _ e he (List.mem_cons_of_mem _ hmem)

theorem groupByKey_pairwise :
    ∀ (l : List Employee) (seen : List (String × String)),
    List.Pairwise (fun a b => ¬ sameKey a b) (groupByKey seen l) := by
  intro l
  induction l with
  | nil => intro seen; simp [groupByKey]
  | cons h t ih =>
    intro seen
    by_cases hs : (h.full_name, h.birth_date) ∈ seen
    · rw [groupByKey, if_pos hs]
      exact ih seen
    · rw [groupByKey, if_neg hs]
      refine List.Pairwise.cons ?_ (ih _)
      intro b hb hkey
      have := groupByKey_not_seen t _ b hb
      exact this (by
        rw [hkey.1, hkey.2] at *
        exact List.mem_cons_self _ _)

theorem groupByKey_covers :
    ∀ (l : List Employee) (seen : List (String × String)) (e : Employee),
    e ∈ l → (e.full_name, e.birth_date) ∉ seen →
    ∃ e2 ∈ groupByKey seen l, sameKey e2 e := by
  intro l
  induction l with
  | nil => intro seen e he; simp at he
  | cons h t ih =>
    intro seen e he hns
    by_cases hs : (h.full_name, h.birth_date) ∈ seen
    · rw [groupByKey, if_pos hs]
      rcases List.mem_cons.mp he with he | he
      · exact absurd (he ▸ hs) hns
      · exact ih seen e he hns
    · rw [groupByKey, if_neg hs]
      by_cases hk : sameKey h e
      · exact ⟨h, List.mem_cons_self _ _, hk⟩
      · rcases List.mem_cons.mp he with he | he
        · exact absurd (he ▸ ⟨rfl, rfl⟩) hk
        · obtain ⟨e2, hm, hk2⟩ := ih _ e he (by
            intro hmem
            rcases List.mem_cons.mp hmem with hx | hx
            · exact hk ⟨(Prod.mk.injEq .. ▸ hx).1.symm, (Prod.mk.injEq .. ▸ hx).2.symm⟩
            · exact hns hx)
          exact ⟨e2, List.mem_cons_of_mem _ hm, hk2⟩

theorem pairwise_countP_key :
    ∀ (l : List Employee), List.Pairwise (fun a b => ¬ sameKey a b) l →
    ∀ name bd : String, (∃ e ∈ l, e.full_name = name ∧ e.birth_date = bd) →
    l.countP (fun e => e.full_name == name && e.birth_date == bd) = 1 := by
  intro l
  induction l with
  | nil => intro _ name bd hex; simp at hex
  | cons h t ih =>
    intro hpw name bd hex
    by_cases hmatch : h.full_name = name ∧ h.birth_date = bd
    · rw [List.countP_cons_of_pos _ _ (by simp [hmatch.1, hmatch.2])]
      have hzero : t.countP (fun e => e.full_name == name && e.birth_date == bd) = 0 := by
        rw [List.countP_eq_zero]
        intro b hb hbmatch
        simp only [Bool.and_eq_true, beq_iff_eq] at hbmatch
        exact (List.pairwise_cons.mp hpw).1 b hb
          ⟨hmatch.1.trans hbmatch.1.symm, hmatch.2.trans hbmatch.2.symm⟩
      omega
    · rw [List.countP_cons_of_neg _ _ (by
        simp only [Bool.and_eq_true, beq_iff_eq]
        exact hmatch)]
      refine ih (List.pairwise_cons.mp hpw).2 name bd ?_
      obtain ⟨e, he, hke⟩ := hex
      rcases List.mem_cons.mp he with he | he
      · exact absurd (he ▸ hke) hmatch
      · exact ⟨e, he, hke⟩

/-- C8 — `list_distinct` returns the table's rows deduplicated on
(full_name, birth_date) and ordered by full_name ascending: the output is
sorted by name, no two output rows share a key, every table row's key appears
in the output, every output row is one of the table's rows, and the operation
leaves the store unchanged (duplicates remain in the underlying table). -/
theorem C8_list_distinct_dedup_sorted (db : Db) :
    List.Sorted byName (listDistinct db).1 ∧
    List.Pairwise (fun a b => ¬ sameKey a b) (listDistinct db).1 ∧
    (∀ e ∈ db.committed, ∃ e2 ∈ (listDistinct db).1, sameKey e2 e) ∧
    (∀ e2 ∈ (listDistinct db).1, e2 ∈ db.committed) ∧
    (listDistinct db).2 = db := by
  have hsymm : Symmetric (fun a b : Employee => ¬ sameKey a b) := by
    intro a b hab hk
    exact hab ⟨hk.1.symm, hk.2.symm⟩
  have hperm := List.perm_insertionSort byName (groupByKey [] db.committed)
  refine ⟨?_, ?_, ?_, ?_, rfl⟩
  · exact List.sorted_insertionSort byName _
  · exact (List.Perm.pairwise_iff (fun h => hsymm h) hperm).mpr (groupByKey_pairwise _ [])
  · intro e he
    obtain ⟨e2, hm, hk⟩ := groupByKey_covers db.committed [] e he (by simp)
    exact ⟨e2, (List.mem_insertionSort byName).mpr hm, hk⟩
  · intro e2 hm
    exact groupByKey_subset db.committed [] e2 ((List.mem_insertionSort byName).mp hm)

/-- Witness for C8 on a table with an exact duplicate: the sample row twice
plus a second name. -/
theorem C8_list_distinct_dedup_sorted_witness :
    eIvanov ∈ (Db.mk [eIvanov, eIvanov,
        Employee.mk "Petrov Petr Petrovich" "1985-03-02" "Male"] [] false).committed ∧
    ∃ e2 ∈ (listDistinct (Db.mk [eIvanov, eIvanov,
        Employee.mk "Petrov Petr Petrovich" "1985-03-02" "Male"] [] false)).1,
      sameKey e2 eIvanov :=
  ⟨by decide,
   (C8_list_distinct_dedup_sorted (Db.mk [eIvanov, eIvanov,
       Employee.mk "Petrov Petr Petrovich" "1985-03-02" "Male"] [] false)).2.2.1
     eIvanov (by decide)⟩

/-- C10 — when rows share (full_name, birth_date) but differ in gender, the
listing still returns exactly one row for that key (the count of output rows
with the key is one whenever some table row has it), and that single row's
gender is the gender of one of the underlying table rows with that key —
distinct genders do not yield distinct listed rows. -/
theorem C10_one_listed_row_per_key (db : Db) (name bd : String)
    (hex : ∃ e ∈ db.committed, e.full_name = name ∧ e.birth_date = bd) :
    (listDistinct db).1.countP
      (fun e => e.full_name == name && e.birth_date == bd) = 1 ∧
    ∀ e2 ∈ (listDistinct db).1, e2.full_name = name → e2.birth_date = bd →
      ∃ e ∈ db.committed, e.full_name = name ∧ e.birth_date = bd ∧
        e2.gender = e.gender := by
  constructor
  · have hperm := List.perm_insertionSort byName (groupByKey [] db.committed)
    simp only [listDistinct, sortByName]
    rw [List.Perm.countP_eq _ hperm]
    refine pairwise_countP_key _ (groupByKey_pairwise db.committed []) name bd ?_
    obtain ⟨e, he, hke⟩ := hex
    obtain ⟨e2, hm, hk⟩ := groupByKey_covers db.committed [] e he (by simp)
    exact ⟨e2, hm, hk.1.trans hke.1, hk.2.trans hke.2⟩
  · intro e2 hm h1 h2
    exact ⟨e2, groupByKey_subset db.committed []
      e2 ((List.mem_insertionSort byName).mp hm), h1, h2, rfl⟩

/-- Witness for C10: two rows agreeing on name and birth date with opposite
genders produce exactly one listed row for that key. -/
theorem C10_one_listed_row_per_key_witness :
    (∃ e ∈ (Db.mk [eIvanov,
        Employee.mk "Ivanov Ivan Ivanovich" "1990-05-15" "Female"] [] false).committed,
      e.full_name = "Ivanov Ivan Ivanovich" ∧ e.birth_date = "1990-05-15") ∧
    (listDistinct (Db.mk [eIvanov,
        Employee.mk "Ivanov Ivan Ivanovich" "1990-05-15" "Female"] [] false)).1.countP
      (fun e => e.full_name == "Ivanov Ivan Ivanovich" && e.birth_date == "1990-05-15") = 1 :=
  ⟨by decide,
   (C10_one_listed_row_per_key (Db.mk [eIvanov,
       Employee.mk "Ivanov Ivan Ivanovich" "1990-05-15" "Female"] [] false)
     "Ivanov Ivan Ivanovich" "1990-05-15" (by decide)).1⟩
